import Mathlib

/-!
# Verification of the kospiswing swing-trading screening dashboard

Shallow embedding of the repository's data model and operations:

* `fetchAPI` — the HTTP wrapper of `frontend/src/lib/api.ts`;
* `SwingStock`, `SwingData` — the result-record interfaces of `lib/api.ts`;
* `serializeSwingStock`, `parseTags` — the per-stock record shape and the
  tag string handling of `frontend/src/app/swing/page.tsx`;
* `renderedStocks` — the TOP-3 / rest partition rendered by `SwingPage`;
* the `analysis_results` table of `supabase_schema.sql` with its
  `UNIQUE(target_date, result_type)` constraint and the upsert contract;
* the screening engine (factor validity, composite scoring with weight
  renormalization, trade-parameter derivation, ranking and top-N
  selection) — the engine's Python source is not part of the present
  source tree, so those definitions are modelled from the specification,
  each marked `Modelled from the spec:` in its doc comment.

Prices, returns and scores are embedded as rationals (`ℚ`).
-/

namespace KospiSwing

/-! ## HTTP layer: `fetchAPI` (frontend/src/lib/api.ts) -/

/-- An HTTP response as seen by `fetchAPI`: the `ok` flag, the numeric
status code, and the JSON body the `res.json()` call would deliver. -/
structure HttpResponse (T : Type) where
  ok : Bool
  status : Nat
  jsonBody : T

/-- Embedding of `fetchAPI` from `lib/api.ts`:
`if (!res.ok) throw new Error(...); return res.json();`.
The thrown `Error` is the `Except.error` branch, carrying the message
string built from the status code. -/
def fetchAPI {T : Type} (res : HttpResponse T) : Except String T :=
  if res.ok then Except.ok res.jsonBody
  else Except.error ("API error: " ++ toString res.status)

/-! ## Result records (lib/api.ts `SwingStock`, `SwingData`) -/

/-- Embedding of the `SwingStock` interface of `lib/api.ts`.  Field names
follow the TypeScript source (the Korean names kept verbatim); the
TypeScript index signature `[key: string]: unknown` adds no declared
field and is not part of the record shape. -/
structure SwingStock where
  «종목명» : String
  Sector : String
  «현재가» : ℚ
  «등락률» : ℚ
  «스윙점수» : ℚ
  «목표가» : ℚ
  «손절가» : ℚ
  «목표수익률» : ℚ
  «손절수익률» : ℚ
  RSI : ℚ
  Tags : String
  «AI분석코멘트» : String
  deriving DecidableEq

/-- A JSON-like scalar: each declared `SwingStock` field is a string or a
number. -/
inductive JsonVal where
  | str : String → JsonVal
  | num : ℚ → JsonVal
  deriving DecidableEq

/-- The serialized per-stock record: the ordered field list of the
`SwingStock` interface, exactly as declared in `lib/api.ts`. -/
def serializeSwingStock (s : SwingStock) : List (String × JsonVal) :=
  [("종목명", JsonVal.str s.«종목명»),
   ("Sector", JsonVal.str s.Sector),
   ("현재가", JsonVal.num s.«현재가»),
   ("등락률", JsonVal.num s.«등락률»),
   ("스윙점수", JsonVal.num s.«스윙점수»),
   ("목표가", JsonVal.num s.«목표가»),
   ("손절가", JsonVal.num s.«손절가»),
   ("목표수익률", JsonVal.num s.«목표수익률»),
   ("손절수익률", JsonVal.num s.«손절수익률»),
   ("RSI", JsonVal.num s.RSI),
   ("Tags", JsonVal.str s.Tags),
   ("AI분석코멘트", JsonVal.str s.«AI분석코멘트»)]

/-- Embedding of the `Tags` component's parsing in `swing/page.tsx`:
`tags.split(",").map((t) => t.trim()).filter(Boolean)` — the single
delimited tag string becomes an ordered list of non-empty tags. -/
def parseTags (tags : String) : List String :=
  ((tags.splitOn ",").map String.trim).filter (fun t => t ≠ "")

/-- Embedding of the `SwingData` interface of `lib/api.ts`: the full
result list, the TOP-3 list, and the optional `error` field. -/
structure SwingData where
  data : List SwingStock
  top3 : List SwingStock
  error : Option String

/-- Embedding of `SwingPage` (`swing/page.tsx` lines 144-175): the page
renders the stocks of `top3` (the TOP-3 section) followed by
`data.slice(3)` (the rest section); the first three elements of `data`
are never rendered from `data` itself. -/
def renderedStocks (d : SwingData) : List SwingStock :=
  d.top3 ++ d.data.drop 3

/-! ## Persistence: `analysis_results` (supabase_schema.sql) -/

/-- A row of the `analysis_results` table of `supabase_schema.sql`
(the `id BIGSERIAL` surrogate key and `created_at` timestamp are
server-generated bookkeeping, not part of the submitted record). -/
structure AnalysisRow where
  target_date : String
  result_type : String
  results_json : String
  top_picks_json : Option String
  stock_count : Int
  deriving DecidableEq

/-- The key of the `UNIQUE(target_date, result_type)` constraint on
`analysis_results`. -/
def rowKey (r : AnalysisRow) : String × String :=
  (r.target_date, r.result_type)

/-- The table-level invariant enforced by
`UNIQUE(target_date, result_type)`: no two rows share a key. -/
def uniqueKeys (t : List AnalysisRow) : Prop :=
  (t.map rowKey).Nodup

instance (t : List AnalysisRow) : Decidable (uniqueKeys t) := by
  unfold uniqueKeys; infer_instance

/-- Modelled from the spec: the idempotent-upsert submission contract of
§6 ("re-running the engine for the same date and submitting the output
again must overwrite rather than duplicate").  The submitting client is
not under the present source tree; the schema comment on
`analysis_results` marks the unique pair as the upsert key
("target_date + report_type 조합 유니크 (upsert용)").  Submitting a row
overwrites the row with the same `(target_date, result_type)` key when
one exists and appends the row otherwise. -/
def upsertResult (r : AnalysisRow) (t : List AnalysisRow) : List AnalysisRow :=
  if t.any (fun x => rowKey x = rowKey r) then
    t.map (fun x => if rowKey x = rowKey r then r else x)
  else t ++ [r]

/-! ## Screening engine (modelled from the spec)

The swing screening engine itself (`utils/analysis.py`, refactored from
`swing_screener.py` per the implementation plan) is not part of the
present source tree — only its output contract (`SwingData`), its
persistence schema and its UI consumer are.  The definitions below are
modelled from the specification's §3-§4.5 and marked as such. -/

/-- Modelled from the spec: the `FactorResult` record of §3 — factor
identifier, raw metric value, normalized score and a validity flag. -/
structure FactorResult where
  factorId : String
  raw : ℚ
  score : ℚ
  valid : Bool
  deriving DecidableEq

/-- Modelled from the spec: the scoring-relevant attributes of the
`ScoredStock` record of §3 used by the ranker — ticker identifier,
display name, sector, current price, daily return percent and the
composite score. -/
structure ScoredStock where
  ticker : String
  name : String
  sector : String
  price : ℚ
  dailyReturnPct : ℚ
  score : ℚ
  deriving DecidableEq

/-- The ranking key of §4.5 as a lexicographic triple: composite score
descending, daily return percent descending, ticker ascending (the
first two components negated so that the lexicographic `≤` realises the
descending order). -/
def rankKey (a : ScoredStock) : Lex (ℚ × Lex (ℚ × String)) :=
  toLex (-a.score, toLex (-a.dailyReturnPct, a.ticker))

/-- Modelled from the spec: the §4.5 comparator — sort key composite
score descending; tie-break 1 daily return percent descending;
tie-break 2 ticker identifier ascending. -/
def rankLe (a b : ScoredStock) : Prop :=
  b.score < a.score ∨
    (a.score = b.score ∧
      (b.dailyReturnPct < a.dailyReturnPct ∨
        (a.dailyReturnPct = b.dailyReturnPct ∧ a.ticker ≤ b.ticker)))

instance : DecidableRel rankLe := by
  unfold rankLe; infer_instance

theorem rankLe_iff_rankKey (a b : ScoredStock) :
    rankLe a b ↔ rankKey a ≤ rankKey b := by
  unfold rankLe rankKey
  rw [Prod.Lex.le_iff, Prod.Lex.le_iff]
  simp only [neg_lt_neg_iff, neg_inj]

instance : IsTotal ScoredStock rankLe :=
  ⟨fun a b => by
    rw [rankLe_iff_rankKey, rankLe_iff_rankKey]
    exact le_total (rankKey a) (rankKey b)⟩

instance : IsTrans ScoredStock rankLe :=
  ⟨fun a b c hab hbc => by
    rw [rankLe_iff_rankKey] at *
    exact le_trans hab hbc⟩

/-- Modelled from the spec: the default `top_n` of §4.5 is 3. -/
def topNDefault : Nat := 3

/-- Modelled from the spec: the §4.5 Ranker/Selector — a pure
sort/partition.  Sorts the scored universe by the documented comparator
and selects the first `top_n` as `top_picks`; returns
`(full sorted sequence, top picks)`. -/
def rankUniverse (top_n : Nat) (l : List ScoredStock) :
    List ScoredStock × List ScoredStock :=
  let sorted := l.insertionSort rankLe
  (sorted, sorted.take top_n)

/-- Modelled from the spec: clamping of the composite score to [0,100]
(§4.2). -/
def clampScore (x : ℚ) : ℚ := max 0 (min 100 x)

/-- Modelled from the spec: rounding of the composite score to one
decimal place (§3). -/
def round1 (x : ℚ) : ℚ := (round (10 * x) : ℚ) / 10

/-- Modelled from the spec: the minimum number of valid factors of §4.2
("e.g. 3"). -/
def minValidFactors : Nat := 3

/-- The valid subset of a weighted factor list (weight paired with the
`FactorResult` it applies to). -/
def validPairs (ps : List (ℚ × FactorResult)) : List (ℚ × FactorResult) :=
  ps.filter (fun p => p.2.valid)

/-- Total weight of the valid subset. -/
def validWeightSum (ps : List (ℚ × FactorResult)) : ℚ :=
  ((validPairs ps).map Prod.fst).sum

/-- Modelled from the spec: the §4.2 renormalized weights — each valid
factor's weight divided by the total valid weight, so that they sum to
1.0 over the valid subset. -/
def renormWeights (ps : List (ℚ × FactorResult)) : List ℚ :=
  (validPairs ps).map (fun p => p.1 / validWeightSum ps)

/-- Modelled from the spec: the §4.2 weighted average of the valid
normalized factor scores under the renormalized weights
(`Σ wᵢ·sᵢ / Σ wᵢ` over the valid subset). -/
def rawComposite (ps : List (ℚ × FactorResult)) : ℚ :=
  ((validPairs ps).map (fun p => p.1 * p.2.score)).sum / validWeightSum ps

/-- Modelled from the spec: the §4.2 composite scorer — `none` (the
ticker is skipped) when fewer than `minValidFactors` factors are valid,
otherwise the clamped, one-decimal-rounded weighted average. -/
def compositeScore (ps : List (ℚ × FactorResult)) : Option ℚ :=
  if (validPairs ps).length < minValidFactors then none
  else some (round1 (clampScore (rawComposite ps)))

/-- Modelled from the spec: the §4.3 target return percent — grows with
the composite score and moderate volatility from a positive base, and
is capped (the 8% band of the §8 example; §9 marks the literal values
illustrative). -/
def targetReturnPct (score volRaw : ℚ) : ℚ :=
  min 8 (2 + clampScore score / 25 + max 0 (min 2 volRaw))

/-- Modelled from the spec: the §4.3 stop return percent — scales with
volatility from a positive base and is bounded below a maximum loss
(the 5% band of the §8 example). -/
def stopReturnPct (volRaw : ℚ) : ℚ :=
  min 5 (2 + max 0 volRaw)

/-- Modelled from the spec: the §4.3 Trade Parameter Deriver — returns
`(target price, stop-loss price)`; both are omitted (`none`) when the
volatility factor is invalid, never defaulted. -/
def deriveParams (price score volRaw : ℚ) (volValid : Bool) :
    Option ℚ × Option ℚ :=
  if volValid then
    (some (price * (1 + targetReturnPct score volRaw / 100)),
     some (price * (1 - stopReturnPct volRaw / 100)))
  else (none, none)

/-- Modelled from the spec: the per-ticker evaluation input — the
snapshot-derived identifying fields plus the six weighted factor
results produced by the factor calculators. -/
structure TickerInput where
  ticker : String
  name : String
  sector : String
  price : ℚ
  dailyReturnPct : ℚ
  factors : List (ℚ × FactorResult)
  deriving DecidableEq

/-- Modelled from the spec: per-ticker evaluation — `none` (the ticker
is skipped and counted) when the composite scorer rejects it for too
few valid factors, otherwise the `ScoredStock` carrying the composite
score. -/
def evalTicker (i : TickerInput) : Option ScoredStock :=
  (compositeScore i.factors).map (fun c =>
    { ticker := i.ticker, name := i.name, sector := i.sector,
      price := i.price, dailyReturnPct := i.dailyReturnPct, score := c })

/-- Modelled from the spec: the `ScreeningRun` record of §3 — evaluation
date, the full ordered result sequence, the designated top picks, the
skipped-ticker count, and the §6/§7 `error` field. -/
structure ScreeningRun where
  date : String
  data : List ScoredStock
  top_picks : List ScoredStock
  skipped : Nat
  error : Option String

/-- Modelled from the spec: one engine invocation (§2 flow, §4.5
selection, §7 RunFailure policy).  Each ticker is evaluated
independently; failed tickers are skipped and counted; the survivors
are ranked and the first `topNDefault` designated `top_picks`; the
`error` field is set exactly when the run produced zero usable results
(a failed upstream universe listing reaches the engine as an empty
universe). -/
def runEngine (d : String) (u : List TickerInput) : ScreeningRun :=
  let scored := u.filterMap evalTicker
  let sorted := scored.insertionSort rankLe
  { date := d
    data := sorted
    top_picks := sorted.take topNDefault
    skipped := u.countP (fun i => (evalTicker i).isNone)
    error := if sorted.isEmpty then some "no usable results" else none }

/-! ## Sample records (used by concrete instantiations) -/

/-- A concrete `SwingStock` record. -/
def sampleStock : SwingStock :=
  { «종목명» := "삼성전자", Sector := "IT", «현재가» := 50000,
    «등락률» := 12/10, «스윙점수» := 72, «목표가» := 54000, «손절가» := 47500,
    «목표수익률» := 8, «손절수익률» := -5, RSI := 55,
    Tags := "수급폭발,쌍끌이매수", «AI분석코멘트» := "" }

/-- A concrete `analysis_results` row. -/
def sampleRow : AnalysisRow :=
  { target_date := "20260215", result_type := "swing",
    results_json := "[]", top_picks_json := none, stock_count := 0 }

/-- A second concrete `analysis_results` row with a different key. -/
def sampleRow2 : AnalysisRow :=
  { target_date := "20260214", result_type := "swing",
    results_json := "[]", top_picks_json := some "[]", stock_count := 5 }

/-- A valid supply-demand factor paired with its §4.2 weight. -/
def factorSupply : ℚ × FactorResult :=
  (25/100, { factorId := "supply_demand", raw := 3, score := 80, valid := true })

/-- A valid momentum factor paired with its weight. -/
def factorMomentum : ℚ × FactorResult :=
  (20/100, { factorId := "momentum", raw := 1, score := 70, valid := true })

/-- A valid oscillator factor paired with its weight. -/
def factorOsc : ℚ × FactorResult :=
  (15/100, { factorId := "oscillator", raw := 55, score := 60, valid := true })

/-- An invalid volume factor paired with its weight. -/
def factorVolumeBad : ℚ × FactorResult :=
  (10/100, { factorId := "volume", raw := 0, score := 0, valid := false })

/-- A weighted factor list with three valid factors (scoreable). -/
def psOk : List (ℚ × FactorResult) :=
  [factorSupply, factorMomentum, factorOsc, factorVolumeBad]

/-- A ticker whose factor list has only one valid factor: the scorer
skips it. -/
def inputFew : TickerInput :=
  { ticker := "000660", name := "SK하이닉스", sector := "IT",
    price := 200000, dailyReturnPct := 1,
    factors := [factorSupply, factorVolumeBad] }

/-! ## Theorems -/

/-- C9: for every endpoint and HTTP response, `fetchAPI` returns the
parsed JSON body exactly when the response status is ok, and throws an
`Error` whose message carries the status code if and only if the
response status is not ok; no other failure path is handled. -/
theorem fetchAPI_ok_and_error_characterization {T : Type}
    (res : HttpResponse T) :
    (res.ok = true → fetchAPI res = Except.ok res.jsonBody) ∧
    ((∃ e, fetchAPI res = Except.error e) ↔ res.ok = false) ∧
    (∀ e, fetchAPI res = Except.error e →
      e = "API error: " ++ toString res.status) := by
  rcases res with ⟨ok, status, body⟩
  cases ok <;> simp [fetchAPI]

/-- Witness for C9: the theorem applied at concrete ok and not-ok
responses. -/
theorem fetchAPI_ok_and_error_characterization_witness :
    fetchAPI (HttpResponse.mk true 200 (42 : Nat)) = Except.ok 42 ∧
    "API error: 404" = "API error: " ++ toString (404 : Nat) :=
  ⟨(fetchAPI_ok_and_error_characterization (HttpResponse.mk true 200 (42 : Nat))).1 rfl,
   (fetchAPI_ok_and_error_characterization (HttpResponse.mk false 404 (0 : Nat))).2.2
     "API error: 404" rfl⟩

/-- C7: the serialized per-stock record consists of exactly the twelve
documented fields, in declaration order — name, sector, current price,
daily return percent, composite score, target price, stop-loss price,
target return percent, stop-loss return percent, oscillator value, the
tags as a single delimited string (from which the UI derives the
ordered tag list), and the commentary string (a `String`, so it may be
empty). -/
theorem serializeSwingStock_exact_fields (s : SwingStock) :
    (serializeSwingStock s).map Prod.fst =
      ["종목명", "Sector", "현재가", "등락률", "스윙점수", "목표가",
       "손절가", "목표수익률", "손절수익률", "RSI", "Tags", "AI분석코멘트"] ∧
    (serializeSwingStock s).lookup "Tags" = some (JsonVal.str s.Tags) ∧
    (serializeSwingStock s).lookup "AI분석코멘트" =
      some (JsonVal.str s.«AI분석코멘트») := by
  refine ⟨rfl, ?_, ?_⟩ <;> rfl

/-- C10: `SwingPage` renders exactly the stocks of `top3` followed by
the stocks of `data` from index 3 onward; under the assumption that
`top3` equals the first three elements of `data`, the rendered sequence
is exactly `data`, so every stock is displayed exactly once. -/
theorem renderedStocks_top3_then_rest (d : SwingData) :
    renderedStocks d = d.top3 ++ d.data.drop 3 ∧
    (d.top3 = d.data.take 3 →
      renderedStocks d = d.data ∧
      ∀ a : SwingStock, (renderedStocks d).count a = d.data.count a) := by
  refine ⟨rfl, fun h => ?_⟩
  have hd : renderedStocks d = d.data := by
    unfold renderedStocks
    rw [h, List.take_append_drop]
  exact ⟨hd, fun a => by rw [hd]⟩

/-- Witness for C10: the theorem applied at a concrete `SwingData`
whose `top3` is the 3-element prefix of `data`. -/
theorem renderedStocks_top3_then_rest_witness :
    renderedStocks { data := [sampleStock], top3 := [sampleStock],
                     error := none } = [sampleStock] :=
  ((renderedStocks_top3_then_rest
      { data := [sampleStock], top3 := [sampleStock], error := none }).2 rfl).1

theorem mem_upsertResult (r : AnalysisRow) (t : List AnalysisRow) :
    r ∈ upsertResult r t := by
  unfold upsertResult
  by_cases hc : t.any (fun x => rowKey x = rowKey r) = true
  · rw [if_pos hc]
    obtain ⟨x, hx, hkey⟩ := List.any_eq_true.mp hc
    simp only [decide_eq_true_eq] at hkey
    exact List.mem_map.mpr ⟨x, hx, by rw [if_pos hkey]⟩
  · rw [if_neg hc]
    simp

theorem keys_nodup_upsertResult (r : AnalysisRow) (t : List AnalysisRow)
    (h : uniqueKeys t) : ((upsertResult r t).map rowKey).Nodup := by
  unfold uniqueKeys at h
  unfold upsertResult
  by_cases hc : t.any (fun x => rowKey x = rowKey r) = true
  · rw [if_pos hc, List.map_map]
    have hfun : rowKey ∘ (fun x => if rowKey x = rowKey r then r else x)
        = rowKey := by
      funext x
      simp only [Function.comp_apply]
      by_cases hk : rowKey x = rowKey r
      · rw [if_pos hk, hk]
      · rw [if_neg hk]
    rw [hfun]
    exact h
  · rw [if_neg hc, List.map_append, List.nodup_append]
    simp only [List.any_eq_true, decide_eq_true_eq, not_exists, not_and] at hc
    refine ⟨h, by simp, ?_⟩
    intro k hk
    obtain ⟨x, hx, rfl⟩ := List.mem_map.mp hk
    simp only [List.map_cons, List.map_nil, List.mem_singleton]
    exact fun habs => hc x hx habs

theorem countP_eq_one_of_nodup_mem {α : Type} [DecidableEq α]
    {l : List α} {a : α} (hn : l.Nodup) (hm : a ∈ l) :
    l.countP (fun b => b = a) = 1 := by
  induction l with
  | nil => cases hm
  | cons x xs ih =>
    rw [List.countP_cons]
    rcases List.mem_cons.mp hm with rfl | hmem
    · have hx : a ∉ xs := (List.nodup_cons.mp hn).1
      have hz : xs.countP (fun b => b = a) = 0 := by
        rw [List.countP_eq_zero]
        intro b hb
        simp only [decide_eq_true_eq]
        rintro rfl
        exact hx hb
      simp [hz]
    · have hne : x ≠ a := by
        rintro rfl
        exact (List.nodup_cons.mp hn).1 hmem
      have hrec := ih (List.nodup_cons.mp hn).2 hmem
      simp [hrec, hne]

theorem length_upsertResult_of_hit (r : AnalysisRow) (t : List AnalysisRow)
    (h : t.any (fun x => rowKey x = rowKey r) = true) :
    (upsertResult r t).length = t.length := by
  unfold upsertResult
  rw [if_pos h, List.length_map]

/-- C8: submitting a result row into a table satisfying the
`UNIQUE(target_date, result_type)` constraint preserves the constraint,
leaves exactly one persisted row per the submitted `(target_date,
result_type)` key, and re-submitting the same output overwrites rather
than duplicates (the second submission does not grow the table). -/
theorem upsertResult_unique_overwrite (r : AnalysisRow)
    (t : List AnalysisRow) (h : uniqueKeys t) :
    uniqueKeys (upsertResult r t) ∧
    ((upsertResult r t).map rowKey).countP (fun k => k = rowKey r) = 1 ∧
    (upsertResult r (upsertResult r t)).length = (upsertResult r t).length := by
  have hkeys := keys_nodup_upsertResult r t h
  have hmem : rowKey r ∈ (upsertResult r t).map rowKey :=
    List.mem_map.mpr ⟨r, mem_upsertResult r t, rfl⟩
  refine ⟨hkeys, countP_eq_one_of_nodup_mem hkeys hmem, ?_⟩
  exact length_upsertResult_of_hit r (upsertResult r t)
    (List.any_eq_true.mpr ⟨r, mem_upsertResult r t, by simp⟩)

/-- Witness for C8: the theorem applied to a concrete one-row table. -/
theorem upsertResult_unique_overwrite_witness :
    uniqueKeys [sampleRow2] ∧
    ((upsertResult sampleRow [sampleRow2]).map rowKey).countP
      (fun k => k = rowKey sampleRow) = 1 :=
  ⟨by decide,
   (upsertResult_unique_overwrite sampleRow [sampleRow2] (by decide)).2.1⟩

/-- C1: in every screening run the full result sequence is sorted by
the documented comparator (composite score descending, then daily
return percent descending, then ticker ascending), the comparator is a
deterministic total order (total, and antisymmetric on the sort key),
`top_picks` is exactly the first `top_n` (default 3) elements of the
full sequence — a sublist of it, preserving relative order — and the
sorted sequence is a permutation of the scored input. -/
theorem rankUniverse_sorted_top_picks (top_n : Nat) (l : List ScoredStock)
    (d : String) (u : List TickerInput) :
    List.Sorted rankLe (rankUniverse top_n l).1 ∧
    (rankUniverse top_n l).2 = (rankUniverse top_n l).1.take top_n ∧
    List.Sublist (rankUniverse top_n l).2 (rankUniverse top_n l).1 ∧
    (rankUniverse top_n l).1.Perm l ∧
    List.Sorted rankLe (runEngine d u).data ∧
    (runEngine d u).top_picks = (runEngine d u).data.take topNDefault ∧
    (∀ a b : ScoredStock, rankLe a b ∨ rankLe b a) ∧
    (∀ a b : ScoredStock, rankLe a b → rankLe b a →
      a.score = b.score ∧ a.dailyReturnPct = b.dailyReturnPct ∧
        a.ticker = b.ticker) := by
  refine ⟨List.sorted_insertionSort rankLe l, rfl, List.take_sublist _ _,
    List.perm_insertionSort rankLe l,
    List.sorted_insertionSort rankLe (u.filterMap evalTicker), rfl,
    fun a b => IsTotal.total a b, fun a b hab hba => ?_⟩
  rw [rankLe_iff_rankKey] at hab hba
  have hk := le_antisymm hab hba
  simp only [rankKey, toLex_inj, Prod.mk.injEq, neg_inj] at hk
  exact ⟨hk.1, hk.2.1, hk.2.2⟩

/-- A pair of distinct `ScoredStock` records sharing the full sort key
(they differ only in the display name). -/
def stockP : ScoredStock :=
  { ticker := "005930", name := "삼성전자", sector := "IT",
    price := 50000, dailyReturnPct := 2, score := 72 }

/-- See `stockP`. -/
def stockQ : ScoredStock :=
  { ticker := "005930", name := "Samsung", sector := "IT",
    price := 50000, dailyReturnPct := 2, score := 72 }

/-- Witness for C1: the key-antisymmetry conjunct applied at a concrete
tied pair, with both comparator hypotheses discharged by evaluation. -/
theorem rankUniverse_sorted_top_picks_witness :
    stockP.score = stockQ.score ∧
    stockP.dailyReturnPct = stockQ.dailyReturnPct ∧
    stockP.ticker = stockQ.ticker :=
  (rankUniverse_sorted_top_picks 3 [] "20260215" []).2.2.2.2.2.2.2
    stockP stockQ (Or.inr ⟨rfl, Or.inr ⟨rfl, le_refl stockP.ticker⟩⟩)
    (Or.inr ⟨rfl, Or.inr ⟨rfl, le_refl stockQ.ticker⟩⟩)

/-- C5: the engine is deterministic — identical snapshot inputs yield
identical `ScreeningRun` records — and the ranker/selector is
idempotent: re-ranking its own output changes neither the full sorted
sequence nor the top picks. -/
theorem runEngine_deterministic_idempotent (d₁ d₂ : String)
    (u₁ u₂ : List TickerInput) (h : d₁ = d₂ ∧ u₁ = u₂)
    (top_n : Nat) (l : List ScoredStock) :
    runEngine d₁ u₁ = runEngine d₂ u₂ ∧
    rankUniverse top_n (rankUniverse top_n l).1 = rankUniverse top_n l := by
  refine ⟨by rw [h.1, h.2], ?_⟩
  have hs : List.Sorted rankLe (rankUniverse top_n l).1 :=
    List.sorted_insertionSort rankLe l
  have he : (rankUniverse top_n l).1.insertionSort rankLe
      = (rankUniverse top_n l).1 := hs.insertionSort_eq
  show ((rankUniverse top_n l).1.insertionSort rankLe,
        ((rankUniverse top_n l).1.insertionSort rankLe).take top_n)
      = rankUniverse top_n l
  rw [he]
  rfl

/-- Witness for C5: the theorem applied at concrete identical inputs. -/
theorem runEngine_deterministic_idempotent_witness :
    runEngine "20260215" [] = runEngine "20260215" [] :=
  (runEngine_deterministic_idempotent "20260215" "20260215" [] []
    ⟨rfl, rfl⟩ 3 []).1

/-- C6: a run over a universe with zero usable tickers (in particular
the empty universe, which is how a failed upstream listing reaches the
engine) still returns a well-formed `ScreeningRun` with empty `data`
and `top_picks` and the `error` field present — and `error` is present
exactly when `data` is empty (zero usable results), otherwise absent. -/
theorem runEngine_error_iff_no_results (d : String) (u : List TickerInput) :
    ((runEngine d u).error.isSome ↔ (runEngine d u).data = []) ∧
    (u = [] →
      (runEngine d u).data = [] ∧ (runEngine d u).top_picks = [] ∧
      (runEngine d u).error.isSome) := by
  constructor
  · show (if ((u.filterMap evalTicker).insertionSort rankLe).isEmpty
        then some "no usable results" else none).isSome
      ↔ (u.filterMap evalTicker).insertionSort rankLe = []
    by_cases hc : ((u.filterMap evalTicker).insertionSort rankLe).isEmpty
    · rw [if_pos hc]
      simp [List.isEmpty_iff.mp hc]
    · rw [if_neg hc]
      simp only [Option.isSome_none, Bool.false_eq_true, false_iff]
      exact fun habs => hc (by rw [habs]; rfl)
  · rintro rfl
    exact ⟨rfl, rfl, rfl⟩

/-- Witness for C6: the theorem applied at the empty universe. -/
theorem runEngine_error_iff_no_results_witness :
    (runEngine "20260215" []).data = [] ∧
    (runEngine "20260215" []).top_picks = [] ∧
    (runEngine "20260215" []).error.isSome :=
  (runEngine_error_iff_no_results "20260215" []).2 rfl

theorem targetReturnPct_bounds (score volRaw : ℚ) :
    2 ≤ targetReturnPct score volRaw ∧ targetReturnPct score volRaw ≤ 8 := by
  unfold targetReturnPct
  constructor
  · refine le_min (by norm_num) ?_
    have h1 : 0 ≤ clampScore score := le_max_left _ _
    have h1d : 0 ≤ clampScore score / 25 := by positivity
    have h2 : (0:ℚ) ≤ max 0 (min 2 volRaw) := le_max_left _ _
    linarith
  · exact min_le_left _ _

theorem stopReturnPct_bounds (volRaw : ℚ) :
    2 ≤ stopReturnPct volRaw ∧ stopReturnPct volRaw ≤ 5 := by
  unfold stopReturnPct
  constructor
  · refine le_min (by norm_num) ?_
    have h2 : (0:ℚ) ≤ max 0 volRaw := le_max_left _ _
    linarith
  · exact min_le_left _ _

/-- C2: whenever the volatility factor is invalid both trade parameters
are omitted (`none`), never defaulted; and whenever they are derivable
(volatility valid, positive current price) the invariant
`stop_loss_price < current_price < target_price` holds. -/
theorem deriveParams_invariant (price score volRaw : ℚ) (volValid : Bool)
    (hp : 0 < price) :
    (volValid = false →
      deriveParams price score volRaw volValid = (none, none)) ∧
    (volValid = true →
      ∃ tp sp, deriveParams price score volRaw volValid = (some tp, some sp) ∧
        sp < price ∧ price < tp) := by
  cases volValid
  · refine ⟨fun _ => rfl, fun h => ?_⟩
    simp at h
  · refine ⟨fun h => by simp at h, fun _ => ?_⟩
    refine ⟨price * (1 + targetReturnPct score volRaw / 100),
            price * (1 - stopReturnPct volRaw / 100), rfl, ?_, ?_⟩
    · have hs := stopReturnPct_bounds volRaw
      nlinarith [mul_pos hp (show (0:ℚ) < stopReturnPct volRaw / 100 by
        linarith [hs.1])]
    · have ht := targetReturnPct_bounds score volRaw
      nlinarith [mul_pos hp (show (0:ℚ) < targetReturnPct score volRaw / 100 by
        linarith [ht.1])]

/-- Witness for C2: the theorem applied at the §8 example price with a
valid volatility factor. -/
theorem deriveParams_invariant_witness :
    0 < (50000:ℚ) ∧
    ∃ tp sp, deriveParams 50000 72 3 true = (some tp, some sp) ∧
      sp < 50000 ∧ 50000 < tp :=
  ⟨by norm_num, (deriveParams_invariant 50000 72 3 true (by norm_num)).2 rfl⟩

theorem sum_map_div (l : List ℚ) (c : ℚ) :
    (l.map (fun x => x / c)).sum = l.sum / c := by
  induction l with
  | nil => simp
  | cons x xs ih => simp [ih, add_div]

theorem validPairs_sub {ps : List (ℚ × FactorResult)}
    {p : ℚ × FactorResult} (h : p ∈ validPairs ps) :
    p ∈ ps ∧ p.2.valid = true := by
  unfold validPairs at h
  simpa using List.mem_filter.mp h

theorem validWeightSum_pos {ps : List (ℚ × FactorResult)}
    (hw : ∀ p ∈ ps, 0 < p.1) (hne : validPairs ps ≠ []) :
    0 < validWeightSum ps := by
  unfold validWeightSum
  obtain ⟨p, hp⟩ := List.exists_mem_of_ne_nil _ hne
  have hp1 : p.1 ∈ (validPairs ps).map Prod.fst :=
    List.mem_map.mpr ⟨p, hp, rfl⟩
  have hpos : 0 < p.1 := hw p (validPairs_sub hp).1
  have hnn : ∀ w ∈ (validPairs ps).map Prod.fst, 0 ≤ w := by
    intro w hwmem
    obtain ⟨q, hq, rfl⟩ := List.mem_map.mp hwmem
    exact (hw q (validPairs_sub hq).1).le
  have hle := List.single_le_sum hnn _ hp1
  linarith

theorem rawComposite_bounds {ps : List (ℚ × FactorResult)}
    (hw : ∀ p ∈ ps, 0 < p.1)
    (hs : ∀ p ∈ ps, p.2.valid = true → 0 ≤ p.2.score ∧ p.2.score ≤ 100)
    (hne : validPairs ps ≠ []) :
    0 ≤ rawComposite ps ∧ rawComposite ps ≤ 100 := by
  have hW := validWeightSum_pos hw hne
  unfold rawComposite
  have hS0 : 0 ≤ ((validPairs ps).map (fun p => p.1 * p.2.score)).sum := by
    apply List.sum_nonneg
    intro x hx
    obtain ⟨q, hq, rfl⟩ := List.mem_map.mp hx
    have h1 := validPairs_sub hq
    exact mul_nonneg (hw q h1.1).le (hs q h1.1 h1.2).1
  have hS100 : ((validPairs ps).map (fun p => p.1 * p.2.score)).sum
      ≤ 100 * validWeightSum ps := by
    unfold validWeightSum
    rw [← List.sum_map_mul_left]
    apply List.sum_le_sum
    intro q hq
    have h1 := validPairs_sub hq
    have h2 := (hs q h1.1 h1.2).2
    nlinarith [hw q h1.1]
  exact ⟨div_nonneg hS0 hW.le, (div_le_iff₀ hW).mpr (by linarith)⟩

theorem round1_bounds {x : ℚ} (h0 : 0 ≤ x) (h100 : x ≤ 100) :
    0 ≤ round1 x ∧ round1 x ≤ 100 := by
  unfold round1
  have hl : (0:ℤ) ≤ round (10 * x) := by
    rw [round_eq]
    exact Int.le_floor.mpr (by push_cast; linarith)
  have hu : round (10 * x) ≤ 1000 := by
    rw [round_eq]
    have hle : (10 * x + 1/2 : ℚ) ≤ 2001/2 := by linarith
    calc ⌊(10 * x + 1/2 : ℚ)⌋ ≤ ⌊(2001/2 : ℚ)⌋ := Int.floor_le_floor hle
    _ = 1000 := by norm_num
  constructor
  · exact div_nonneg (by exact_mod_cast hl) (by norm_num)
  · rw [div_le_iff₀ (by norm_num)]
    calc ((round (10 * x) : ℤ) : ℚ) ≤ ((1000 : ℤ) : ℚ) := by exact_mod_cast hu
    _ = 100 * 10 := by norm_num

/-- C3: for every `ScoredStock` the composite scorer emits, the score
is [0,100]-bounded, is a one-decimal value (an integer number of
tenths), and equals the one-decimal rounding of the weighted average of
the valid normalized factor scores (the [0,100]-clamp is the identity
here since the weighted average of [0,100]-scores already lies in
[0,100]). -/
theorem compositeScore_weighted_bounds (ps : List (ℚ × FactorResult))
    (hw : ∀ p ∈ ps, 0 < p.1)
    (hs : ∀ p ∈ ps, p.2.valid = true → 0 ≤ p.2.score ∧ p.2.score ≤ 100) :
    ∀ c, compositeScore ps = some c →
      (0 ≤ c ∧ c ≤ 100) ∧ (∃ z : ℤ, c = (z : ℚ) / 10) ∧
      c = round1 (rawComposite ps) := by
  intro c hc
  unfold compositeScore at hc
  by_cases hlen : (validPairs ps).length < minValidFactors
  · rw [if_pos hlen] at hc
    cases hc
  · rw [if_neg hlen] at hc
    have hne : validPairs ps ≠ [] := by
      intro habs
      rw [habs] at hlen
      exact hlen (by norm_num [minValidFactors])
    have hraw := rawComposite_bounds hw hs hne
    have hclamp : clampScore (rawComposite ps) = rawComposite ps := by
      unfold clampScore
      rw [min_eq_right hraw.2, max_eq_right hraw.1]
    have hceq : c = round1 (rawComposite ps) := by
      rw [← hclamp]
      exact (Option.some_inj.mp hc).symm
    refine ⟨?_, ⟨round (10 * rawComposite ps), by rw [hceq]; rfl⟩, hceq⟩
    rw [hceq]
    exact round1_bounds hraw.1 hraw.2

/-- Witness for C3: the theorem applied at a concrete factor list with
three valid factors (weights .25/.20/.15, scores 80/70/60: weighted
average 215/3 ≈ 71.67, rounded to 71.7). -/
theorem compositeScore_weighted_bounds_witness :
    0 ≤ (717/10 : ℚ) ∧ (717/10 : ℚ) ≤ 100 :=
  (compositeScore_weighted_bounds psOk
    (by
      intro p hp
      fin_cases hp <;>
        norm_num [factorSupply, factorMomentum, factorOsc, factorVolumeBad])
    (by
      intro p hp hv
      fin_cases hp <;>
        norm_num [factorSupply, factorMomentum, factorOsc,
          factorVolumeBad] at hv ⊢)
    (717/10)
    (by
      norm_num [compositeScore, validPairs, psOk, factorSupply,
        factorMomentum, factorOsc, factorVolumeBad, minValidFactors,
        rawComposite, validWeightSum, clampScore, round1, round_eq,
        min_def, max_def, List.filter, List.sum_cons])).1

theorem ticker_of_evalTicker {j : TickerInput} {s : ScoredStock}
    (h : evalTicker j = some s) : s.ticker = j.ticker := by
  unfold evalTicker at h
  cases hc : compositeScore j.factors with
  | none =>
    rw [hc] at h
    simp at h
  | some c =>
    rw [hc] at h
    simp only [Option.map_some'] at h
    injection h with h2
    rw [← h2]

/-- C4: an invalid factor is excluded from the weighted sum and the
remaining weights renormalize to sum exactly 1.0 over the valid subset;
a ticker with fewer than the minimum number (3) of valid factors is not
scored, is absent from the run's `data`, and is reflected in the
skipped count — never present with a zero score. -/
theorem renormalize_and_skip (d : String) (u : List TickerInput)
    (i : TickerInput) (hmem : i ∈ u)
    (hw : ∀ p ∈ i.factors, 0 < p.1)
    (huniq : ∀ j ∈ u, j.ticker = i.ticker → j = i) :
    (minValidFactors ≤ (validPairs i.factors).length →
      (renormWeights i.factors).sum = 1) ∧
    ((validPairs i.factors).length < minValidFactors →
      evalTicker i = none ∧
      (∀ s ∈ (runEngine d u).data, s.ticker ≠ i.ticker) ∧
      1 ≤ (runEngine d u).skipped) := by
  constructor
  · intro hlen
    have hne : validPairs i.factors ≠ [] := by
      intro habs
      rw [habs] at hlen
      norm_num [minValidFactors] at hlen
    have hW := validWeightSum_pos hw hne
    unfold renormWeights
    have hmm : (validPairs i.factors).map
          (fun p => p.1 / validWeightSum i.factors)
        = ((validPairs i.factors).map Prod.fst).map
            (fun x => x / validWeightSum i.factors) := by
      rw [List.map_map]
      rfl
    rw [hmm, sum_map_div]
    exact div_self hW.ne'
  · intro hlen
    have hnone : evalTicker i = none := by
      unfold evalTicker compositeScore
      rw [if_pos hlen]
      rfl
    refine ⟨hnone, ?_, ?_⟩
    · intro s hsdata hticker
      have hsmem : s ∈ u.filterMap evalTicker := by
        have hde : (runEngine d u).data
            = (u.filterMap evalTicker).insertionSort rankLe := rfl
        rw [hde] at hsdata
        exact (List.mem_insertionSort rankLe).mp hsdata
      obtain ⟨j, hj, hjeval⟩ := List.mem_filterMap.mp hsmem
      have hjt : s.ticker = j.ticker := ticker_of_evalTicker hjeval
      have hji : j = i := huniq j hj (by rw [← hjt, hticker])
      rw [hji, hnone] at hjeval
      cases hjeval
    · show 1 ≤ u.countP (fun j => (evalTicker j).isNone)
      have hpos : 0 < u.countP (fun j => (evalTicker j).isNone) :=
        List.countP_pos_iff.mpr ⟨i, hmem, by rw [hnone]; rfl⟩
      omega

/-- Witness for C4: the theorem applied at a one-ticker universe whose
ticker has a single valid factor, hence is skipped. -/
theorem renormalize_and_skip_witness :
    evalTicker inputFew = none ∧
    1 ≤ (runEngine "20260215" [inputFew]).skipped :=
  have h := (renormalize_and_skip "20260215" [inputFew] inputFew
    (List.mem_singleton.mpr rfl)
    (by
      intro p hp
      fin_cases hp <;> norm_num [factorSupply, factorVolumeBad])
    (by
      intro j hj _
      simpa using hj)).2
    (by
      norm_num [validPairs, inputFew, factorSupply, factorVolumeBad,
        minValidFactors, List.filter])
  ⟨h.1, h.2.2⟩

end KospiSwing
